import Mathlib

/-!
Verification development for the shellmail inbound-message pipeline.

The TypeScript sources (`src/otp.ts`, `src/email.ts`, `src/api.ts`,
`src/webhook.ts`, `src/scheduled.ts`) are shallowly embedded as executable
Lean definitions.  Conventions used throughout:

* JavaScript strings are Lean `String`s (lists of characters); all inputs of
  interest are ASCII, so `Char.toLower` / explicit whitespace classes model
  `toLowerCase` and the regex `\s` class.
* `x | null` values are `Option` values; JavaScript truthiness of strings
  (where `""` and `null` are falsy) is modelled explicitly (`jsTruthyStr`,
  `jsOrStr`, `jsOrInt`).
* Timestamps are integers (milliseconds); the stored ISO-8601 strings compare
  lexicographically exactly as their underlying instants, so integer
  comparison is a faithful model of the SQL comparisons.
* The D1 database tables are lists of rows; a SQL statement becomes a pure
  function from the table to the result and/or updated table.
* Regular-expression matching (JavaScript leftmost-position, in-order
  alternation, greedy quantifier semantics) is implemented by dedicated
  scanning functions, one per pattern of the source.
-/

/-! ## JavaScript string primitives -/

/-- The regex/`trim` whitespace class restricted to ASCII:
space, tab, newline, carriage return, vertical tab, form feed. -/
def wsChar (c : Char) : Bool :=
  c = ' ' || c = '\t' || c = '\n' || c = '\r' || c = Char.ofNat 11 || c = Char.ofNat 12

/-- `pat.isPrefixOf l` up to nothing: plain case-sensitive prefix test. -/
def isPrefixL (pat l : List Char) : Bool :=
  match pat, l with
  | [], _ => true
  | _ :: _, [] => false
  | p :: ps, c :: cs => p = c && isPrefixL ps cs

/-- `String.prototype.includes` (case-sensitive substring containment). -/
def listContains (pat : List Char) : List Char → Bool
  | [] => isPrefixL pat []
  | l@(_ :: t) => isPrefixL pat l || listContains pat t

/-- `s.includes(pat)`. -/
def jsIncludes (s pat : String) : Bool :=
  listContains pat.data s.data

/-- `s.toLowerCase()` over ASCII content. -/
def jsToLower (s : String) : String :=
  String.mk (s.data.map Char.toLower)

/-- One step of `String.prototype.split` with a non-empty separator: collect
the current chunk (reversed in `acc`) until the separator matches, then
start a new chunk after it.  Fuelled by the input length; every step
consumes at least one character, so `fuel = l.length + 1` never runs out. -/
def jsSplitGo (sep : List Char) : Nat → List Char → List Char → List (List Char)
  | 0, acc, l => [acc.reverse ++ l]
  | fuel + 1, acc, l =>
    if isPrefixL sep l then
      acc.reverse :: jsSplitGo sep fuel [] (l.drop sep.length)
    else
      match l with
      | [] => [acc.reverse]
      | c :: t => jsSplitGo sep fuel (c :: acc) t

/-- `s.split(sep)` for a non-empty separator. -/
def jsSplit (s sep : String) : List String :=
  (jsSplitGo sep.data (s.data.length + 1) [] s.data).map String.mk

/-- `s.substring(n)` (on the ASCII strings of this development). -/
def jsDrop (s : String) (n : Nat) : String :=
  String.mk (s.data.drop n)

/-- `s.indexOf(pat)`: index of the first occurrence, `-1` if absent. -/
def jsIndexOfAux (pat : List Char) : List Char → Nat → Int
  | [], i => if isPrefixL pat [] then (i : Int) else -1
  | l@(_ :: t), i => if isPrefixL pat l then (i : Int) else jsIndexOfAux pat t (i + 1)

/-- `s.indexOf(pat)`. -/
def jsIndexOf (s pat : String) : Int :=
  jsIndexOfAux pat.data s.data 0

/-- JavaScript `a || b` on numbers (`0` is falsy, every other number truthy;
`indexOf` never yields `NaN`). -/
def jsOrInt (a b : Int) : Int :=
  if a = 0 then b else a

/-- JavaScript `a || b` on `string | null` values (`null` and `""` falsy). -/
def jsOrStr (a b : Option String) : Option String :=
  match a with
  | some s => if s = "" then b else some s
  | none => b

/-- JavaScript truthiness of a `string | null` value. -/
def jsTruthyStr (o : Option String) : Bool :=
  match o with
  | some s => !(s = "")
  | none => false

/-- `String.prototype.trim` (ASCII whitespace). -/
def jsTrim (s : String) : String :=
  String.mk (((s.data.dropWhile wsChar).reverse.dropWhile wsChar).reverse)

/-- Value of a leading decimal-digit run. -/
def digitsToNat (l : List Char) : Nat :=
  l.foldl (fun n c => 10 * n + (c.toNat - '0'.toNat)) 0

/-- `parseInt(s, 10)` on the candidate strings of the extractor: the value of
the leading digit run, `none` (JavaScript `NaN`) when the string does not
start with a digit. -/
def jsParseInt (s : String) : Option Nat :=
  let ds := s.data.takeWhile Char.isDigit
  if ds.isEmpty then none else some (digitsToNat ds)

/-! ## Rate limiter (`src/api.ts`, `checkRateLimit`) -/

/-- One row of the `rate_limits` table. -/
structure RateEvent where
  key : String
  createdAt : Int
deriving DecidableEq

/-- `SELECT COUNT(*) FROM rate_limits WHERE key = ? AND created_at >= ?`. -/
def countInWindow (events : List RateEvent) (key : String) (windowStart : Int) : Nat :=
  (events.filter (fun e => e.key == key && decide (windowStart ≤ e.createdAt))).length

/-- `checkRateLimit(db, key, maxAttempts, windowMs)` of `src/api.ts`:
delete this key's events older than `now - windowMs`, count the remaining
events of the key inside the window, deny when the count has reached
`maxAttempts`, otherwise record a fresh event timestamped `now` and allow.
Returns the boolean result together with the updated `rate_limits` table. -/
def checkRateLimit (events : List RateEvent) (key : String) (maxAttempts : Nat)
    (windowMs now : Int) : Bool × List RateEvent :=
  let windowStart := now - windowMs
  let events1 := events.filter (fun e => !(e.key == key && decide (e.createdAt < windowStart)))
  let cnt := countInWindow events1 key windowStart
  if maxAttempts ≤ cnt then
    (false, events1)
  else
    (true, events1 ++ [⟨key, now⟩])

/-! ## Retention policy (`src/email.ts`, `calculateExpiresAt`) -/

/-- `RETENTION_DAYS` table of `src/email.ts`. -/
def RETENTION_DAYS : List (String × Nat) := [("free", 7), ("shell", 30), ("reef", 90)]

/-- `RETENTION_DAYS[plan]`: property lookup on the literal record. -/
def lookupDays (plan : String) : Option Nat :=
  (RETENTION_DAYS.find? (fun p => p.1 == plan)).map (·.2)

/-- JavaScript `a || b` where `a : number | undefined` (`0` is falsy). -/
def jsNumOr (a : Option Nat) (b : Nat) : Nat :=
  match a with
  | some d => if d = 0 then b else d
  | none => b

/-- Milliseconds in one day; the worker runs in UTC, so
`setDate(getDate() + days)` advances the instant by exactly this much per day. -/
def msPerDay : Nat := 86400000

/-- `calculateExpiresAt(plan)` of `src/email.ts`, with the current instant
made explicit: `RETENTION_DAYS[plan] || RETENTION_DAYS.free` days after now
(`RETENTION_DAYS.free` is `7`). -/
def calculateExpiresAt (plan : String) (now : Nat) : Nat :=
  now + jsNumOr (lookupDays plan) 7 * msPerDay

/-! ## Webhook delivery (`src/webhook.ts`, `deliverWebhook`) -/

/-- Outcome of the single `fetch` POST: an HTTP response with a status code,
or a network failure (the `catch` branch). -/
inductive FetchOutcome where
  | response (status : Nat)
  | networkError
deriving DecidableEq

/-- Status code recorded for an outcome (`response.status`, and `0` when the
attempt could not reach the network). -/
def statusOf : FetchOutcome → Nat
  | .response s => s
  | .networkError => 0

/-- `Response.ok`: status in the inclusive range 200–299. -/
def responseOk (status : Nat) : Bool :=
  200 ≤ status && status < 300

/-- One row of the `webhook_log` table. -/
structure WebhookRecord where
  id : String
  addressId : String
  eventType : String
  payload : String
  statusCode : Nat
  delivered : Nat
  attempts : Nat
deriving DecidableEq

/-- `deliverWebhook` of `src/webhook.ts` (the header construction and HMAC
signature do not influence the recorded outcome and are elided): POST once,
derive `(statusCode, delivered)` from the outcome — `response.ok` on a
response, `(0, false)` on a network error — then append exactly one
`webhook_log` row with `attempts = 1` and return `delivered`.  Both the fetch
and the insert are wrapped in `try`/`catch` in the source, so the function
never throws to its caller; the embedding is correspondingly total. -/
def deliverWebhook (log : List WebhookRecord) (logId addressId eventType payloadJson : String)
    (outcome : FetchOutcome) : Bool × List WebhookRecord :=
  let statusCode :=
    match outcome with
    | .response s => s
    | .networkError => 0
  let delivered :=
    match outcome with
    | .response s => responseOk s
    | .networkError => false
  (delivered,
   log ++ [⟨logId, addressId, eventType, payloadJson, statusCode,
            if delivered then 1 else 0, 1⟩])

/-! ## OTP extraction (`src/otp.ts`)

The three text-cleaning `replace` chains and the seven regular expressions of
`src/otp.ts` are embedded as scanning functions over `List Char`, following
JavaScript regex semantics: positions are tried left to right, alternatives
in written order, quantifiers greedily. -/

/-- `src/otp.ts` `VERIFICATION_KEYWORDS`. -/
def VERIFICATION_KEYWORDS : List String :=
  ["verification", "verify", "confirm", "code", "otp", "one-time", "one time",
   "password", "passcode", "login", "sign in", "sign-in", "authenticate",
   "magic link", "2fa", "two-factor", "two factor", "security code"]

/-- `isVerificationEmail(subject, body)`: does
``${subject} ${body}`.toLowerCase()`` contain any keyword? -/
def isVerificationEmail (subject body : String) : Bool :=
  VERIFICATION_KEYWORDS.any (fun kw => jsIncludes (jsToLower (subject ++ " " ++ body)) kw)

/-- Regex word character `\w` = `[A-Za-z0-9_]`. -/
def wordChar (c : Char) : Bool :=
  c.isAlphanum || c = '_'

/-- Consume `pat` (given lower-case) case-insensitively from the front of
`s`; returns `(consumed original characters, rest)`. -/
def matchCIGo : List Char → List Char → Option (List Char × List Char)
  | [], s => some ([], s)
  | _ :: _, [] => none
  | p :: ps, c :: cs =>
    if c.toLower = p then (matchCIGo ps cs).map (fun pr => (c :: pr.1, pr.2)) else none

/-- Case-insensitive literal match at the current position. -/
def matchCI (pat : String) (s : List Char) : Option (List Char × List Char) :=
  matchCIGo pat.data s

/-- `replace(/=\r?\n/g, '')`: remove quoted-printable soft line breaks. -/
def removeSoftBreaks : List Char → List Char
  | [] => []
  | '=' :: '\r' :: '\n' :: rest => removeSoftBreaks rest
  | '=' :: '\n' :: rest => removeSoftBreaks rest
  | c :: rest => c :: removeSoftBreaks rest

/-- `replace(/&nbsp;/g, ' ')`. -/
def replaceNbsp : List Char → List Char
  | [] => []
  | '&' :: 'n' :: 'b' :: 's' :: 'p' :: ';' :: rest => ' ' :: replaceNbsp rest
  | c :: rest => c :: replaceNbsp rest

/-- After a `<`: if the tag pattern `<[^>]+>` matches here (at least one
non-`>` character before the next `>`), return the text after that `>`. -/
def tagEnd : List Char → Option (List Char)
  | [] => none
  | '>' :: _ => none
  | _ :: t => tagEndAux t
where
  tagEndAux : List Char → Option (List Char)
    | [] => none
    | '>' :: r => some r
    | _ :: t => tagEndAux t

/-- `replace(/<[^>]+>/g, ' ')`, fuelled by the input length (each step
consumes at least one character, so the fuel never runs out on
`fuel = l.length`). -/
def stripTagsF : Nat → List Char → List Char
  | 0, l => l
  | _ + 1, [] => []
  | fuel + 1, '<' :: rest =>
    match tagEnd rest with
    | some r => ' ' :: stripTagsF fuel r
    | none => '<' :: stripTagsF fuel rest
  | fuel + 1, c :: rest => c :: stripTagsF fuel rest

/-- `replace(/<[^>]+>/g, ' ')`: strip HTML tags. -/
def stripTags (l : List Char) : List Char :=
  stripTagsF l.length l

/-- `replace(/\s+/g, ' ')`: collapse whitespace runs to single spaces.  The
flag records whether the previous character belonged to a whitespace run. -/
def collapseWsGo : Bool → List Char → List Char
  | _, [] => []
  | prevWs, c :: rest =>
    if wsChar c then
      if prevWs then collapseWsGo true rest else ' ' :: collapseWsGo true rest
    else c :: collapseWsGo false rest

/-- `replace(/\s+/g, ' ')`. -/
def collapseWs (l : List Char) : List Char :=
  collapseWsGo false l

/-- The cleaning chain of `extractCode`. -/
def cleanForCode (s : String) : List Char :=
  collapseWs (stripTags (replaceNbsp (removeSoftBreaks s.data)))

/-- A per-position matcher: given the previous character (for `\b`) and the
text from the current position, optionally produce the capture group. -/
abbrev CodeMatcher := Option Char → List Char → Option (List Char)

/-- `(?:kw1|kw2|…)[\s:]*(\d{4,8})` at the current position: try the
alternatives in order; after a keyword, `[\s:]*` greedily consumes
whitespace/colons, then the capture takes up to eight digits and needs at
least four.  If the digits fail after one alternative, the regex backtracks
to the next alternative. -/
def tryKwDigits (kws : List String) : List Char → Option (List Char)
  | s => go kws s
where
  go : List String → List Char → Option (List Char)
    | [], _ => none
    | kw :: rest, s =>
      match matchCI kw s with
      | some (_, r) =>
        let r2 := r.dropWhile (fun c => wsChar c || c = ':')
        let run := r2.takeWhile Char.isDigit
        if 4 ≤ run.length then some (run.take 8) else go rest s
      | none => go rest s

/-- `\b(\d{n})\b` at the current position: a word boundary before (the first
captured character is a digit, hence a word character), exactly `n` digits,
and a word boundary after. -/
def tryStandaloneDigits (n : Nat) (prev : Option Char) (s : List Char) : Option (List Char) :=
  let boundaryBefore := match prev with | none => true | some p => !wordChar p
  let cand := s.take n
  if boundaryBefore && cand.length = n && cand.all Char.isDigit &&
      (match s.drop n with | [] => true | c :: _ => !wordChar c) then
    some cand
  else none

/-- `(?:code|pin|otp)[\s:]*([A-Z0-9]{6,8})` with the `i` flag: like
`tryKwDigits` but the capture is 6–8 ASCII alphanumerics. -/
def tryKwAlnum (kws : List String) : List Char → Option (List Char)
  | s => go kws s
where
  go : List String → List Char → Option (List Char)
    | [], _ => none
    | kw :: rest, s =>
      match matchCI kw s with
      | some (_, r) =>
        let r2 := r.dropWhile (fun c => wsChar c || c = ':')
        let run := r2.takeWhile Char.isAlphanum
        if 6 ≤ run.length then some (run.take 8) else go rest s
      | none => go rest s

/-- Leftmost-match scan: try the matcher at every position from left to
right, tracking the previous character for word boundaries. -/
def findM (m : CodeMatcher) : Option Char → List Char → Option (List Char)
  | prev, s =>
    match m prev s with
    | some r => some r
    | none =>
      match s with
      | [] => none
      | c :: rest => findM m (some c) rest

/-- `CODE_PATTERNS` of `src/otp.ts`, in source order. -/
def CODE_PATTERNS : List CodeMatcher :=
  [fun _ s => tryKwDigits ["code", "pin", "otp", "password", "passcode"] s,
   fun _ s => tryKwDigits ["enter", "use", "type"] s,
   tryStandaloneDigits 6,
   tryStandaloneDigits 4,
   tryStandaloneDigits 8,
   fun _ s => tryKwAlnum ["code", "pin", "otp"] s]

/-- The candidate filter of `extractCode`: a plausible 4-digit calendar year
(1900–2100) or a known placeholder value is rejected. -/
def badCandidate (c : String) : Bool :=
  (match jsParseInt c with
   | some n => decide (1900 ≤ n) && decide (n ≤ 2100) && decide (c.length = 4)
   | none => false)
  || (["0000", "1234", "123456", "12345678"] : List String).contains c

/-- The pattern loop of `extractCode`: first pattern whose (non-empty)
capture survives the filter wins; a rejected candidate moves on to the next
pattern (`continue`). -/
def pickCode : List CodeMatcher → List Char → Option String
  | [], _ => none
  | m :: rest, s =>
    match findM m none s with
    | some cap =>
      if cap.isEmpty then pickCode rest s
      else
        let code := String.mk cap
        if badCandidate code then pickCode rest s else some code
    | none => pickCode rest s

/-- `extractCode(text)` of `src/otp.ts`. -/
def extractCode (t : String) : Option String :=
  pickCode CODE_PATTERNS (cleanForCode t)

/-- `replace(/=3D/g, '=')`. -/
def replace3D : List Char → List Char
  | [] => []
  | '=' :: '3' :: 'D' :: rest => '=' :: replace3D rest
  | c :: rest => c :: replace3D rest

/-- `replace(/&amp;/g, '&')`. -/
def replaceAmp : List Char → List Char
  | [] => []
  | '&' :: 'a' :: 'm' :: 'p' :: ';' :: rest => '&' :: replaceAmp rest
  | c :: rest => c :: replaceAmp rest

/-- The cleaning chain of `extractLink`. -/
def cleanForLink (s : String) : List Char :=
  replaceAmp (replace3D (removeSoftBreaks s.data))

/-- The URL character class `[^\s<>"]` of the link patterns. -/
def urlChar (c : Char) : Bool :=
  !(wsChar c || c = '<' || c = '>' || c = '"')

/-- `https?:\/\/` case-insensitively at the current position (greedy `s?`:
with the `s` first, without it otherwise); returns the consumed original
characters and the rest. -/
def linkPrefix (s : List Char) : Option (List Char × List Char) :=
  match matchCI "http" s with
  | none => none
  | some (m1, r1) =>
    match matchCI "s://" r1 with
    | some (m2, r2) => some (m1 ++ m2, r2)
    | none =>
      match matchCI "://" r1 with
      | some (m2, r2) => some (m1 ++ m2, r2)
      | none => none

/-- Keyword set of the first link pattern. -/
def LINK_KEYWORDS1 : List String :=
  ["verify", "confirm", "activate", "auth", "login", "magic", "token", "code"]

/-- Keyword set of the second link pattern (query parameter names). -/
def LINK_KEYWORDS2 : List String :=
  ["token", "code", "key", "confirm", "verify"]

/-- Does any keyword match (case-insensitively) at some position of `l`? -/
def anyKwAt (kws : List String) : List Char → Bool
  | [] => false
  | l@(_ :: t) => kws.any (fun kw => (matchCI kw l).isSome) || anyKwAt kws t

/-- Condition of `/https?:\/\/[^\s<>"]+(?:verify|…)[^\s<>"]*/i` on the
maximal URL-character run after the scheme: some keyword must occur at
position ≥ 1 of the run (the `[^\s<>"]+` before it needs one character).
The greedy trailing `[^\s<>"]*` always extends the match to the end of the
run, so only existence matters here. -/
def l1Cond (run : List Char) : Bool :=
  match run with
  | [] => false
  | _ :: t => anyKwAt LINK_KEYWORDS1 t

/-- `[?&](?:token|code|key|confirm|verify)=[^\s<>"]+` at the head of `l`
(which lies inside a URL-character run, so the final `+` only needs
non-emptiness). -/
def l2Check (kws : List String) : List Char → Bool
  | [] => false
  | c :: rest =>
    (c = '?' || c = '&') &&
    kws.any (fun kw =>
      match matchCI kw rest with
      | some (_, '=' :: r') => !r'.isEmpty
      | _ => false)

/-- Condition of the second link pattern on the run after the scheme: at some
position ≥ 1, a `[?&]param=value` segment begins. -/
def l2Cond (run : List Char) : Bool :=
  match run with
  | [] => false
  | _ :: t => go t
where
  go : List Char → Bool
    | [] => false
    | l@(_ :: t) => l2Check LINK_KEYWORDS2 l || go t

/-- A link-pattern match attempt at the current position: scheme prefix, then
the maximal `[^\s<>"]` run, accepted when `cond` holds of the run.  The
match is the prefix plus the whole run (trailing greedy star/plus); the
second component is the text after the run, where a `/g` scan resumes. -/
def linkMatchAt (cond : List Char → Bool) (s : List Char) : Option (List Char × List Char) :=
  match linkPrefix s with
  | none => none
  | some (pre, r) =>
    let run := r.takeWhile urlChar
    if run.isEmpty || !cond run then none
    else some (pre ++ run, r.dropWhile urlChar)

/-- `cleaned.match(pattern)` with the `g` flag: all non-overlapping matches,
scanning positions left to right and resuming after each match.  Fuelled by
the input length (every step consumes at least one character). -/
def scanLinksF (cond : List Char → Bool) : Nat → List Char → List (List Char)
  | 0, _ => []
  | _ + 1, [] => []
  | fuel + 1, s@(_ :: rest) =>
    match linkMatchAt cond s with
    | some (m, after) => m :: scanLinksF cond fuel after
    | none => scanLinksF cond fuel rest

/-- All matches of a link pattern in `s`. -/
def scanLinks (cond : List Char → Bool) (s : List Char) : List (List Char) :=
  scanLinksF cond s.length s

/-- The trailing-junk class of `url.replace(/[<>"'\s]+$/, '')`. -/
def stripClass (c : Char) : Bool :=
  c = '<' || c = '>' || c = '"' || c = '\'' || wsChar c

/-- `url.replace(/[<>"'\s]+$/, '')`. -/
def rstripUrl (l : List Char) : List Char :=
  (l.reverse.dropWhile stripClass).reverse

/-- The skip list of `extractLink`: tracking pixels and common
non-verification URLs (`includes` is case-sensitive, as in the source). -/
def linkSkip (url : String) : Bool :=
  jsIncludes url "unsubscribe" || jsIncludes url "tracking" ||
  jsIncludes url ".gif" || jsIncludes url ".png" || jsIncludes url ".jpg"

/-- The candidate loop of `extractLink`: clean each match's trailing junk,
skip blacklisted candidates, return the first survivor. -/
def firstGoodLink : List (List Char) → Option String
  | [] => none
  | m :: rest =>
    let url := String.mk (rstripUrl m)
    if linkSkip url then firstGoodLink rest else some url

/-- `extractLink(text)` of `src/otp.ts`: try the first pattern's matches,
then the second pattern's. -/
def extractLink (t : String) : Option String :=
  let cleaned := cleanForLink t
  match firstGoodLink (scanLinks l1Cond cleaned) with
  | some u => some u
  | none => firstGoodLink (scanLinks l2Cond cleaned)

/-- The result record of the extractor. -/
structure OtpResult where
  code : Option String
  link : Option String
deriving DecidableEq

/-- `extractOtp(subject, bodyText, bodyHtml)` of `src/otp.ts`: null inputs
default to `""`; the keyword gate runs on the subject and the
newline-joined combination (so the gate string carries the subject twice);
on success the code is extracted from the plain text, then the HTML, then
the subject, and the link from the HTML, then the plain text, each chained
with JavaScript `||`. -/
def extractOtp (subject bodyText bodyHtml : Option String) : OtpResult :=
  let subj := subject.getD ""
  let text := bodyText.getD ""
  let html := bodyHtml.getD ""
  let combined := subj ++ "\n" ++ text ++ "\n" ++ html
  if isVerificationEmail subj combined then
    { code := jsOrStr (jsOrStr (extractCode text) (extractCode html)) (extractCode subj),
      link := jsOrStr (extractLink html) (extractLink text) }
  else
    { code := none, link := none }

/-! ## Email worker (`src/email.ts`) -/

/-- Characters allowed in a boundary capture: `[^";\s]`. -/
def boundaryChar (c : Char) : Bool :=
  !(c = '"' || c = ';' || wsChar c)

/-- Case-sensitive literal match at the current position, returning the rest. -/
def matchLit : List Char → List Char → Option (List Char)
  | [], s => some s
  | _ :: _, [] => none
  | p :: ps, c :: cs => if p = c then matchLit ps cs else none

/-- `/boundary="?([^";\s]+)"?/` at the current position: the literal
`boundary=`, an optional quote, then a non-empty run of boundary characters
(the capture).  When the optional quote is followed by no boundary character
the pattern cannot match here at all (backtracking the `"?` would require
the excluded `"` to start the capture). -/
def boundaryAt (s : List Char) : Option (List Char) :=
  match matchLit "boundary=".data s with
  | none => none
  | some rest =>
    let rest2 := match rest with | '"' :: t => t | _ => rest
    let run := rest2.takeWhile boundaryChar
    if run.isEmpty then none else some run

/-- Leftmost match of the boundary pattern over the content type. -/
def findBoundary : List Char → Option (List Char)
  | [] => none
  | l@(_ :: t) =>
    match boundaryAt l with
    | some r => some r
    | none => findBoundary t

/-- `contentType.match(/boundary="?([^";\s]+)"?/)`, capture group 1. -/
def extractBoundary (contentType : String) : Option String :=
  (findBoundary contentType.data).map String.mk

/-- The body-start computation shared by all branches of `parseEmail`:
`part.indexOf("\r\n\r\n") || part.indexOf("\n\n")`.  Note that this is the
JavaScript numeric `||`: the second `indexOf` is consulted only when the
first one returns `0`, because `-1` is truthy. -/
def bodyStartOf (part : String) : Int :=
  jsOrInt (jsIndexOf part "\r\n\r\n") (jsIndexOf part "\n\n")

/-- The body-extraction core of `parseEmail` in `src/email.ts` (lines 51–81):
branch on the declared content type; for multipart messages split on
`--boundary` and, for each part announcing `text/plain` or `text/html`,
take `part.substring(bodyStart + 4).trim()` when a body start was found
(later parts overwrite earlier ones); for single-part messages do the same
on the whole raw email, defaulting to the entire raw text when no body
start was found.  Returns `(bodyText, bodyHtml)`. -/
def parseBodies (contentType rawEmail : String) : Option String × Option String :=
  if jsIncludes contentType "multipart" then
    match extractBoundary contentType with
    | some boundary =>
      (jsSplit rawEmail ("--" ++ boundary)).foldl
        (fun acc part =>
          if jsIncludes part "Content-Type: text/plain" then
            let bodyStart := bodyStartOf part
            if bodyStart > -1 then
              (some (jsTrim (jsDrop part (bodyStart + 4).toNat)), acc.2)
            else acc
          else if jsIncludes part "Content-Type: text/html" then
            let bodyStart := bodyStartOf part
            if bodyStart > -1 then
              (acc.1, some (jsTrim (jsDrop part (bodyStart + 4).toNat)))
            else acc
          else acc)
        (none, none)
    | none => (none, none)
  else if jsIncludes contentType "text/html" then
    let bodyStart := bodyStartOf rawEmail
    (none,
     some (if bodyStart > -1 then jsTrim (jsDrop rawEmail (bodyStart + 4).toNat) else rawEmail))
  else
    let bodyStart := bodyStartOf rawEmail
    (some (if bodyStart > -1 then jsTrim (jsDrop rawEmail (bodyStart + 4).toNat) else rawEmail),
     none)

/-- One row of the `emails` table (the columns used by this development). -/
structure EmailRow where
  id : String
  addressId : String
  fromAddr : String
  fromName : Option String
  subject : Option String
  bodyText : Option String
  bodyHtml : Option String
  rawHeaders : Option String
  otpCode : Option String
  otpLink : Option String
  otpExtracted : Nat
  expiresAt : Nat
  receivedAt : Nat
deriving DecidableEq

/-- The `INSERT INTO emails` of the `email` handler in `src/email.ts`: the
OTP extraction runs at ingestion and the row stores its results, with
`otp_extracted` set by the JavaScript expression `otp.code || otp.link ? 1 : 0`
(string truthiness).  `plan` is `addr.plan || 'free'`. -/
def ingestEmailRow (id addrId fromA : String) (fromName : Option String) (subject : String)
    (bodyText bodyHtml : Option String) (rawHeaders : String) (plan : Option String)
    (now : Nat) : EmailRow :=
  let otp := extractOtp (some subject) bodyText bodyHtml
  { id := id
    addressId := addrId
    fromAddr := fromA
    fromName := fromName
    subject := some subject
    bodyText := bodyText
    bodyHtml := bodyHtml
    rawHeaders := some rawHeaders
    otpCode := otp.code
    otpLink := otp.link
    otpExtracted := if jsTruthyStr otp.code || jsTruthyStr otp.link then 1 else 0
    expiresAt := calculateExpiresAt ((jsOrStr plan (some "free")).getD "free") now
    receivedAt := now }

/-- Insertion into a list sorted by `receivedAt` descending (SQL
`ORDER BY received_at DESC`; ties are broken deterministically here, the
SQL order among equal timestamps being unspecified). -/
def insertDesc (e : EmailRow) : List EmailRow → List EmailRow
  | [] => [e]
  | x :: xs => if x.receivedAt ≤ e.receivedAt then e :: x :: xs else x :: insertDesc e xs

/-- Sort by `receivedAt` descending. -/
def sortByReceivedDesc : List EmailRow → List EmailRow
  | [] => []
  | x :: xs => insertDesc x (sortByReceivedDesc xs)

/-- The FIFO-eviction statement of the `email` handler (`src/email.ts`
lines 185–203), run after each insert when `addr.max_messages > 0`:

`DELETE FROM emails WHERE address_id = ? AND id NOT IN
 (SELECT id FROM emails WHERE address_id = ? ORDER BY received_at DESC LIMIT ?)`

A row survives iff it belongs to another address or its id is among the
`maxMessages` most recent ids of this address. -/
def enforceMessageLimit (emails : List EmailRow) (addrId : String) (maxMessages : Nat) :
    List EmailRow :=
  if 0 < maxMessages then
    let keepIds :=
      ((sortByReceivedDesc (emails.filter (fun e => e.addressId == addrId))).take
        maxMessages).map (·.id)
    emails.filter (fun e => !(e.addressId == addrId && !keepIds.contains e.id))
  else emails

/-! ## OTP retrieval service (`src/api.ts`, `getOtp`) -/

/-- SQLite `from_addr LIKE '%' || f || '%'`: substring containment,
case-insensitive over ASCII (SQLite's default `LIKE` semantics). -/
def jsLike (s pat : String) : Bool :=
  jsIncludes (jsToLower s) (jsToLower pat)

/-- The long-poll query of `getOtp` (`src/api.ts` lines 451–480):
the most recent email of the address where extraction succeeded
(`otp_extracted = 1`), optionally restricted to `received_at > since` and to
senders matching the `from` filter. -/
def latestOtpEmail (emails : List EmailRow) (addrId : String) (since : Option Nat)
    (fromFilter : Option String) : Option EmailRow :=
  (sortByReceivedDesc (emails.filter (fun e =>
    e.addressId == addrId && e.otpExtracted == 1 &&
    (match since with | some s => decide (s < e.receivedAt) | none => true) &&
    (match fromFilter with | some f => jsLike e.fromAddr f | none => true)))).head?

/-- Result of one `getOtp` request, including the number of 1-second sleeps
the poll loop performed. -/
structure OtpPollResult where
  found : Bool
  message : Option String
  email : Option EmailRow
  sleeps : Nat
deriving DecidableEq

/-- The poll loop of `getOtp`, in the idealised timing model where each
query is instantaneous and each sleep lasts exactly its 1000 ms, so the
elapsed time at iteration `k` is `1000 * k`.  `q k` is the query result at
iteration `k` (the database may change between polls).  On a hit the loop
returns the email; otherwise, when `timeout === 0` or the elapsed time has
reached the timeout, it returns `found = false` with the timeout message
(for positive timeouts) or the no-OTP message; otherwise it sleeps one
second and re-polls. -/
def getOtpLoop (q : Nat → Option EmailRow) (timeout : Nat) (k : Nat) : OtpPollResult :=
  match q k with
  | some e => { found := true, message := none, email := some e, sleeps := 0 }
  | none =>
    if timeout = 0 ∨ timeout ≤ 1000 * k then
      { found := false,
        message := some (if 0 < timeout then "Timeout waiting for OTP" else "No OTP found"),
        email := none, sleeps := 0 }
    else
      let r := getOtpLoop q timeout (k + 1)
      { r with sleeps := r.sleeps + 1 }
termination_by timeout - 1000 * k
decreasing_by omega

/-- `getOtp` of `src/api.ts`: the requested timeout is capped at 30000 ms
(`Math.min(…, 30000)`), then the poll loop runs from iteration 0. -/
def getOtp (q : Nat → Option EmailRow) (timeoutRaw : Nat) : OtpPollResult :=
  getOtpLoop q (min timeoutRaw 30000) 0

/-- Compact `emails`-row builder for concrete test instances. -/
def mkRow (id addrId : String) (recv ext : Nat) (code link : Option String) : EmailRow :=
  ⟨id, addrId, "sender@example.com", none, none, none, none, none, code, link, ext, 0, recv⟩

/-! # Theorems -/

/-! ## Generic list facts about the embedding's primitives -/

/-- Pruning the out-of-window events of a key does not change that key's
in-window count (the `DELETE` before the `COUNT` in `checkRateLimit`). -/
theorem countInWindow_after_prune (events : List RateEvent) (key : String) (ws : Int) :
    countInWindow
        (events.filter (fun e => !(e.key == key && decide (e.createdAt < ws)))) key ws
      = countInWindow events key ws := by
  unfold countInWindow
  rw [List.filter_filter]
  congr 1
  apply List.filter_congr
  intro e _
  by_cases hk : e.key = key
  · by_cases ht : ws ≤ e.createdAt
    · simp [hk, ht]
    · simp [hk, ht]
  · simp [hk]

/-! ## C2: the rate limiter denies without consuming quota -/

/-- C2.  For every key, `maxAttempts > 0` and window: when the key already
has exactly `maxAttempts` recorded events inside the window, the next
`checkRateLimit` call returns `false` and its only state change is the lazy
prune of out-of-window events — no event is inserted, so the denied attempt
does not consume quota — and any call in the same window against a state
with one fewer in-window event for the key returns `true`. -/
theorem checkRateLimit_denies_without_consuming
    (events : List RateEvent) (key : String) (maxAttempts : Nat) (windowMs now : Int)
    (hmax : 0 < maxAttempts)
    (hcount : countInWindow events key (now - windowMs) = maxAttempts) :
    (checkRateLimit events key maxAttempts windowMs now).1 = false ∧
    (checkRateLimit events key maxAttempts windowMs now).2
      = events.filter (fun e => !(e.key == key && decide (e.createdAt < now - windowMs))) ∧
    ∀ events2, countInWindow events2 key (now - windowMs) = maxAttempts - 1 →
      (checkRateLimit events2 key maxAttempts windowMs now).1 = true := by
  refine ⟨?_, ?_, ?_⟩
  · simp only [checkRateLimit, countInWindow_after_prune, hcount, le_refl, if_true]
  · simp only [checkRateLimit, countInWindow_after_prune, hcount, le_refl, if_true]
  · intro events2 h2
    simp only [checkRateLimit, countInWindow_after_prune, h2]
    rw [if_neg (by omega)]

/-- Witness for C2 at a concrete state: one event for key `"k"` at time 5,
window `[0, 10]`, `maxAttempts = 1`. -/
theorem checkRateLimit_denies_without_consuming_witness :
    0 < 1 ∧ countInWindow [⟨"k", 5⟩] "k" (10 - 10) = 1 ∧
    ((checkRateLimit [⟨"k", 5⟩] "k" 1 10 10).1 = false ∧
     (checkRateLimit [⟨"k", 5⟩] "k" 1 10 10).2
       = ([⟨"k", 5⟩] : List RateEvent).filter
           (fun e => !(e.key == "k" && decide (e.createdAt < 10 - 10))) ∧
     ∀ events2, countInWindow events2 "k" (10 - 10) = 1 - 1 →
       (checkRateLimit events2 "k" 1 10 10).1 = true) :=
  ⟨by decide, by decide,
   checkRateLimit_denies_without_consuming [⟨"k", 5⟩] "k" 1 10 10 (by decide) (by decide)⟩

/-! ## C8: retention expiry for the free tier and unknown tiers -/

/-- C8.  `calculateExpiresAt` adds 7 days for the `free` plan and falls back
to the free value (7 days) for every plan string outside the fixed
retention table. -/
theorem calculateExpiresAt_free_and_fallback (t : Nat) (plan : String)
    (h : lookupDays plan = none) :
    calculateExpiresAt "free" t = t + 7 * msPerDay ∧
    calculateExpiresAt plan t = t + 7 * msPerDay := by
  have hfree : lookupDays "free" = some 7 := by decide
  constructor
  · simp [calculateExpiresAt, hfree, jsNumOr]
  · simp [calculateExpiresAt, h, jsNumOr]

/-- Witness for C8 at `t = 0` and the unknown tier `"unknown-tier"`. -/
theorem calculateExpiresAt_free_and_fallback_witness :
    lookupDays "unknown-tier" = none ∧
    (calculateExpiresAt "free" 0 = 0 + 7 * msPerDay ∧
     calculateExpiresAt "unknown-tier" 0 = 0 + 7 * msPerDay) :=
  ⟨by decide, calculateExpiresAt_free_and_fallback 0 "unknown-tier" (by decide)⟩

/-! ## C5: webhook delivery always records exactly one attempt -/

/-- C5.  Every `deliverWebhook` attempt appends exactly one delivery record
(with `attempts = 1`) regardless of outcome and returns without throwing
(the embedding is a total function): a 2xx response yields
`delivered = true`; any other response (e.g. 500) yields `delivered = false`
with that status code recorded; a network failure yields `delivered = false`
with status code 0. -/
theorem deliverWebhook_always_records (log : List WebhookRecord)
    (logId addrId evt payload : String) (outcome : FetchOutcome) :
    deliverWebhook log logId addrId evt payload outcome
      = (responseOk (statusOf outcome),
         log ++ [⟨logId, addrId, evt, payload, statusOf outcome,
                  if responseOk (statusOf outcome) then 1 else 0, 1⟩]) ∧
    statusOf FetchOutcome.networkError = 0 ∧
    responseOk 500 = false ∧
    (∀ s, responseOk s = true ↔ 200 ≤ s ∧ s < 300) := by
  refine ⟨?_, rfl, by decide, fun s => by simp [responseOk]⟩
  cases outcome <;> simp [deliverWebhook, statusOf, responseOk]

/-! ## C1: the parser's blank-line fallback never fires (code bug) -/

/-- C1 (code bug).  The claim says the parser separates headers from body at
the first blank line, supporting bare-newline as well as CRLF separators.
The code computes `part.indexOf("\r\n\r\n") || part.indexOf("\n\n")`, and
`-1` is truthy in JavaScript, so when the CRLF separator is absent the
expression is `-1` and the bare-newline position is never consulted: a
multipart `text/plain` part separated by bare newlines produces no body at
all (first conjunct exhibits the blank line the claim says is honoured; the
third shows the CRLF variant of the same message does produce the body, and
the last shows a bare-newline single-part message degrades to the whole raw
text instead of the text after the separator). -/
theorem parseBodies_bare_newline_unsupported :
    jsIndexOf "\nContent-Type: text/plain\n\nYour code is 482913\n" "\n\n" > -1 ∧
    parseBodies "multipart/alternative; boundary=abc"
        "--abc\nContent-Type: text/plain\n\nYour code is 482913\n--abc--"
      = (none, none) ∧
    parseBodies "multipart/alternative; boundary=abc"
        "--abc\r\nContent-Type: text/plain\r\n\r\nYour code is 482913\r\n--abc--"
      = (some "Your code is 482913", none) ∧
    parseBodies "text/plain" "Subject: x\n\nhello body"
      = (some "Subject: x\n\nhello body", none) := by
  refine ⟨by decide, by decide, by decide, by decide⟩

/-! ## Facts about the extractor plumbing -/

/-- A JavaScript `||` chain yields one of its operands. -/
theorem jsOrStr_eq_some {a b : Option String} {c : String}
    (h : jsOrStr a b = some c) : a = some c ∨ b = some c := by
  cases a with
  | none => exact Or.inr h
  | some s =>
    simp only [jsOrStr] at h
    by_cases hs : s = ""
    · rw [if_pos hs] at h
      exact Or.inr h
    · rw [if_neg hs] at h
      exact Or.inl h

/-- The pattern loop only ever returns a candidate that survived the
year/placeholder filter. -/
theorem pickCode_not_bad : ∀ (ms : List CodeMatcher) (s : List Char) (c : String),
    pickCode ms s = some c → badCandidate c = false := by
  intro ms
  induction ms with
  | nil =>
    intro s c h
    simp [pickCode] at h
  | cons m rest ih =>
    intro s c h
    rw [show pickCode (m :: rest) s
          = (match findM m none s with
             | some cap =>
               if cap.isEmpty then pickCode rest s
               else
                 if badCandidate (String.mk cap) then pickCode rest s
                 else some (String.mk cap)
             | none => pickCode rest s) from rfl] at h
    cases hf : findM m none s with
    | none =>
      rw [hf] at h
      simp only at h
      exact ih s c h
    | some cap =>
      rw [hf] at h
      simp only at h
      by_cases he : cap.isEmpty = true
      · rw [if_pos he] at h
        exact ih s c h
      · rw [if_neg he] at h
        by_cases hb : badCandidate (String.mk cap) = true
        · rw [if_pos hb] at h
          exact ih s c h
        · rw [if_neg hb] at h
          cases h
          exact Bool.not_eq_true _ |>.mp hb

/-- The pattern loop never returns the empty string (the source checks the
truthiness of the capture group before using it). -/
theorem pickCode_ne_empty : ∀ (ms : List CodeMatcher) (s : List Char) (c : String),
    pickCode ms s = some c → c ≠ "" := by
  intro ms
  induction ms with
  | nil =>
    intro s c h
    simp [pickCode] at h
  | cons m rest ih =>
    intro s c h
    rw [show pickCode (m :: rest) s
          = (match findM m none s with
             | some cap =>
               if cap.isEmpty then pickCode rest s
               else
                 if badCandidate (String.mk cap) then pickCode rest s
                 else some (String.mk cap)
             | none => pickCode rest s) from rfl] at h
    cases hf : findM m none s with
    | none =>
      rw [hf] at h
      simp only at h
      exact ih s c h
    | some cap =>
      rw [hf] at h
      simp only at h
      by_cases he : cap.isEmpty = true
      · rw [if_pos he] at h
        exact ih s c h
      · rw [if_neg he] at h
        by_cases hb : badCandidate (String.mk cap) = true
        · rw [if_pos hb] at h
          exact ih s c h
        · rw [if_neg hb] at h
          cases h
          intro hemp
          have : cap = [] := by
            have := congrArg String.data hemp
            simpa using this
          rw [this] at he
          simp at he

/-- `extractCode` never returns a filtered-out candidate. -/
theorem extractCode_not_bad {t : String} {c : String}
    (h : extractCode t = some c) : badCandidate c = false :=
  pickCode_not_bad _ _ _ h

/-- `extractCode` never returns the empty string. -/
theorem extractCode_ne_empty {t : String} {c : String}
    (h : extractCode t = some c) : c ≠ "" :=
  pickCode_ne_empty _ _ _ h

/-- Any code returned by `extractOtp` comes from one of the three
`extractCode` calls. -/
theorem extractOtp_code_source {subject bodyText bodyHtml : Option String} {c : String}
    (h : (extractOtp subject bodyText bodyHtml).code = some c) :
    extractCode (bodyText.getD "") = some c ∨
    extractCode (bodyHtml.getD "") = some c ∨
    extractCode (subject.getD "") = some c := by
  simp only [extractOtp] at h
  split at h
  · simp only at h
    rcases jsOrStr_eq_some h with h1 | h1
    · rcases jsOrStr_eq_some h1 with h2 | h2
      · exact Or.inl h2
      · exact Or.inr (Or.inl h2)
    · exact Or.inr (Or.inr h1)
  · simp at h

/-! ## C9: returned codes are never calendar years or placeholders -/

/-- C9.  `extractOtp` never returns as a code a candidate rejected by the
filter of `extractCode`: a 4-digit value parsing to a year in 1900–2100, or
one of the placeholders `0000`, `1234`, `123456`, `12345678` (such
candidates make the loop move on to the next pattern). -/
theorem extractOtp_never_year_or_placeholder
    (subject bodyText bodyHtml : Option String) (c : String)
    (h : (extractOtp subject bodyText bodyHtml).code = some c) :
    badCandidate c = false := by
  rcases extractOtp_code_source h with h1 | h1 | h1 <;> exact extractCode_not_bad h1

/-- Witness for C9: the spec's own example input. -/
theorem extractOtp_never_year_or_placeholder_witness :
    (extractOtp (some "Your OTP is 482913") (some "") (some "")).code = some "482913" ∧
    badCandidate "482913" = false :=
  ⟨by decide,
   extractOtp_never_year_or_placeholder (some "Your OTP is 482913") (some "") (some "")
     "482913" (by decide)⟩

/-! ## C3: the classification gate (corrected) -/

/-- C3 (counterexample).  The claim states that whenever the lower-cased
concatenation of subject, plain body and HTML body contains no verification
keyword, `extractOtp` returns `{null, null}`.  The gate actually tests
`` `${subject} ${subject}\n${bodyText}\n${bodyHtml}` `` — the subject occurs
twice — so a keyword can arise across the duplicated-subject seam: for the
subject `"in 234567 sign"` (with empty bodies) no keyword occurs in any
concatenation of the three fields, yet the gate sees `"… sign in …"`,
passes, and a code is extracted. -/
theorem extractOtp_keywordfree_counterexample :
    VERIFICATION_KEYWORDS.all
        (fun kw => !jsIncludes (jsToLower ("in 234567 sign" ++ "" ++ "")) kw) = true ∧
    VERIFICATION_KEYWORDS.all
        (fun kw => !jsIncludes (jsToLower ("in 234567 sign" ++ "\n" ++ "" ++ "\n" ++ "")) kw)
      = true ∧
    extractOtp (some "in 234567 sign") (some "") (some "")
      ≠ { code := none, link := none } ∧
    (extractOtp (some "in 234567 sign") (some "") (some "")).code = some "234567" := by
  refine ⟨by decide, by decide, by decide, by decide⟩

/-- C3 (amended).  For every input whose gate string — subject, a space, and
the newline-joined subject/plain-body/HTML-body (the subject thus appearing
twice) — contains, lower-cased, no keyword of the fixed verification set,
`extractOtp` short-circuits to `{code := null, link := null}`. -/
theorem extractOtp_gate_short_circuit (subject bodyText bodyHtml : Option String)
    (h : VERIFICATION_KEYWORDS.all
        (fun kw => !jsIncludes
            (jsToLower ((subject.getD "") ++ " " ++
              ((subject.getD "") ++ "\n" ++ (bodyText.getD "") ++ "\n" ++ (bodyHtml.getD ""))))
            kw) = true) :
    extractOtp subject bodyText bodyHtml = { code := none, link := none } := by
  have hg : isVerificationEmail (subject.getD "")
      ((subject.getD "") ++ "\n" ++ (bodyText.getD "") ++ "\n" ++ (bodyHtml.getD "")) = false := by
    unfold isVerificationEmail
    rw [List.any_eq_false]
    intro kw hkw
    rw [List.all_eq_true] at h
    have := h kw hkw
    simpa using this
  simp only [extractOtp]
  rw [hg]
  simp

/-- Witness for C3's amended gate theorem on a keyword-free message. -/
theorem extractOtp_gate_short_circuit_witness :
    VERIFICATION_KEYWORDS.all
        (fun kw => !jsIncludes
            (jsToLower ("hello" ++ " " ++ ("hello" ++ "\n" ++ "plain note" ++ "\n" ++ "")))
            kw) = true ∧
    extractOtp (some "hello") (some "plain note") (some "")
      = { code := none, link := none } :=
  ⟨by decide,
   extractOtp_gate_short_circuit (some "hello") (some "plain note") (some "") (by decide)⟩

/-! ## The long-poll loop: sleep bound and termination messages -/

/-- Inductive bound on the poll loop: starting at iteration `k` (elapsed
`1000 * k` ms), the total sleeping time plus the already elapsed time stays
below one sleep interval past the timeout.  The auxiliary bound `m` on the
remaining time drives the induction. -/
theorem getOtpLoop_sleeps_bound (q : Nat → Option EmailRow) (T : Nat) :
    ∀ m k, T - 1000 * k ≤ m → 1000 * k ≤ T + 999 →
      1000 * ((getOtpLoop q T k).sleeps + k) ≤ T + 999 := by
  intro m
  induction m with
  | zero =>
    intro k h1 h2
    rw [getOtpLoop]
    cases hq : q k with
    | some e => simp [hq]; omega
    | none =>
      simp only [hq]
      split
      · simp
        omega
      · omega
  | succ n ih =>
    intro k h1 h2
    rw [getOtpLoop]
    cases hq : q k with
    | some e => simp [hq]; omega
    | none =>
      simp only [hq]
      split
      · simp
        omega
      · rename_i hcond
        have hrec := ih (k + 1) (by omega) (by omega)
        simp only
        omega

/-- When the database never returns a row and the timeout is positive, the
loop always ends in the timeout message with `found = false`. -/
theorem getOtpLoop_none_times_out (q : Nat → Option EmailRow) (T : Nat) (hT : 0 < T)
    (hq : ∀ j, q j = none) :
    ∀ m k, T - 1000 * k ≤ m →
      (getOtpLoop q T k).found = false ∧
      (getOtpLoop q T k).message = some "Timeout waiting for OTP" := by
  intro m
  induction m with
  | zero =>
    intro k h1
    rw [getOtpLoop]
    simp only [hq k]
    split
    · simp [hT]
    · omega
  | succ n ih =>
    intro k h1
    rw [getOtpLoop]
    simp only [hq k]
    split
    · simp [hT]
    · rename_i hcond
      have hrec := ih (k + 1) (by omega)
      simpa using hrec

/-! ## C6: the poll loop is bounded (corrected) -/

/-- C6 (counterexample).  The claim bounds the number of poll iterations by
the timeout divided by the 1-second sleep interval, so that no request polls
longer than the capped timeout.  With `timeout = 500` ms (and no matching
message), the loop performs one full 1000 ms sleep: one sleep interval
exceeds `500 / 1000 = 0`, and the 1000 ms slept exceed the 500 ms capped
timeout. -/
theorem getOtp_timeout500_counterexample :
    (getOtp (fun _ => none) 500).sleeps = 1 ∧
    ¬((getOtp (fun _ => none) 500).sleeps ≤ min 500 30000 / 1000) ∧
    ¬(1000 * (getOtp (fun _ => none) 500).sleeps ≤ min 500 30000) := by
  have h1 : (getOtp (fun _ => none) 500).sleeps = 1 := by
    unfold getOtp
    norm_num
    rw [getOtpLoop]
    norm_num
    rw [getOtpLoop]
    norm_num
  refine ⟨h1, ?_, ?_⟩ <;> rw [h1] <;> norm_num

/-- C6 (amended).  For every query behaviour and requested timeout, the poll
loop of `getOtp` terminates (the embedding is total by the decreasing
measure `timeout - 1000·k`) after at most `⌈timeout/1000⌉` one-second
sleeps, where the timeout is first capped at 30000 ms; hence no request
sleeps longer than the capped timeout rounded up to a whole second, and in
particular never longer than 30 seconds.  (For timeouts that are not a
multiple of 1000 ms the last sleep may run up to one interval past the
timeout, which is what the counterexample exhibits.) -/
theorem getOtp_sleeps_bounded (q : Nat → Option EmailRow) (timeoutRaw : Nat) :
    1000 * (getOtp q timeoutRaw).sleeps ≤ min timeoutRaw 30000 + 999 ∧
    (getOtp q timeoutRaw).sleeps ≤ (min timeoutRaw 30000 + 999) / 1000 ∧
    1000 * (getOtp q timeoutRaw).sleeps ≤ 30000 := by
  have h := getOtpLoop_sleeps_bound q (min timeoutRaw 30000) (min timeoutRaw 30000) 0
    (by omega) (by omega)
  unfold getOtp
  have hcap : min timeoutRaw 30000 ≤ 30000 := by omega
  refine ⟨by omega, by omega, by omega⟩

/-! ## C7: immediate miss with a distinct message -/

/-- C7.  A `getOtp` call with `timeout = 0` and no matching message at the
first poll returns immediately — `found = false`, zero sleeps — with the
"No OTP found" message, which is distinct from the "Timeout waiting for
OTP" message produced whenever a positive timeout elapses without a match. -/
theorem getOtp_immediate_miss (q : Nat → Option EmailRow) (h : q 0 = none) :
    getOtp q 0
      = { found := false, message := some "No OTP found", email := none, sleeps := 0 } ∧
    (∀ q2 t, (∀ j, q2 j = none) → 0 < t →
      (getOtp q2 t).found = false ∧
      (getOtp q2 t).message = some "Timeout waiting for OTP") ∧
    "No OTP found" ≠ "Timeout waiting for OTP" := by
  refine ⟨?_, ?_, by decide⟩
  · unfold getOtp
    norm_num
    rw [getOtpLoop]
    simp [h]
  · intro q2 t hq2 ht
    have hT : 0 < min t 30000 := by omega
    have := getOtpLoop_none_times_out q2 (min t 30000) hT hq2 (min t 30000) 0 (by omega)
    unfold getOtp
    exact this

/-- Witness for C7 with the constantly empty query. -/
theorem getOtp_immediate_miss_witness :
    ((fun _ : Nat => (none : Option EmailRow)) 0 = none) ∧
    (getOtp (fun _ => none) 0
       = { found := false, message := some "No OTP found", email := none, sleeps := 0 } ∧
     (∀ q2 t, (∀ j, q2 j = none) → 0 < t →
       (getOtp q2 t).found = false ∧
       (getOtp q2 t).message = some "Timeout waiting for OTP") ∧
     "No OTP found" ≠ "Timeout waiting for OTP") :=
  ⟨rfl, getOtp_immediate_miss (fun _ => none) rfl⟩

/-! ## Sorting facts for the eviction and retrieval queries -/

/-- `insertDesc` produces a permutation of consing. -/
theorem insertDesc_perm (e : EmailRow) :
    ∀ l : List EmailRow, List.Perm (insertDesc e l) (e :: l) := by
  intro l
  induction l with
  | nil => rfl
  | cons x xs ih =>
    rw [insertDesc]
    by_cases hx : x.receivedAt ≤ e.receivedAt
    · rw [if_pos hx]
    · rw [if_neg hx]
      exact (ih.cons x).trans (List.Perm.swap e x xs)

/-- The sort is a permutation of its input. -/
theorem sortByReceivedDesc_perm :
    ∀ l : List EmailRow, List.Perm (sortByReceivedDesc l) l := by
  intro l
  induction l with
  | nil => rfl
  | cons x xs ih =>
    rw [sortByReceivedDesc]
    exact (insertDesc_perm x (sortByReceivedDesc xs)).trans (ih.cons x)

/-- Non-increasing `receivedAt` order (the `ORDER BY received_at DESC`). -/
abbrev RecvDescOrdered (l : List EmailRow) : Prop :=
  l.Pairwise (fun a b => b.receivedAt ≤ a.receivedAt)

/-- Insertion preserves the descending order. -/
theorem insertDesc_sorted (e : EmailRow) :
    ∀ l : List EmailRow, RecvDescOrdered l → RecvDescOrdered (insertDesc e l) := by
  intro l
  induction l with
  | nil =>
    intro _
    exact List.pairwise_singleton _ _
  | cons x xs ih =>
    intro h
    have h1 : ∀ a ∈ xs, a.receivedAt ≤ x.receivedAt := (List.pairwise_cons.mp h).1
    have h2 : RecvDescOrdered xs := (List.pairwise_cons.mp h).2
    rw [insertDesc]
    by_cases hx : x.receivedAt ≤ e.receivedAt
    · rw [if_pos hx]
      refine List.pairwise_cons.mpr ⟨?_, h⟩
      intro a ha
      rcases List.mem_cons.mp ha with rfl | ha
      · exact hx
      · exact le_trans (h1 a ha) hx
    · rw [if_neg hx]
      refine List.pairwise_cons.mpr ⟨?_, ih h2⟩
      intro a ha
      have ha' := (insertDesc_perm e xs).mem_iff.mp ha
      rcases List.mem_cons.mp ha' with rfl | ha'
      · omega
      · exact h1 a ha'

/-- The sort is sorted. -/
theorem sortByReceivedDesc_sorted : ∀ l : List EmailRow,
    RecvDescOrdered (sortByReceivedDesc l) := by
  intro l
  induction l with
  | nil => exact List.Pairwise.nil
  | cons x xs ih =>
    rw [sortByReceivedDesc]
    exact insertDesc_sorted x _ ih

/-! ## C4: FIFO eviction keeps the newest messages -/

/-- C4.  After each insert, with a positive cap and distinct message ids for
the address (the `id` column is the table's primary key), the eviction
statement (i) leaves the messages of every other address untouched,
(ii) keeps exactly `min (number of the address's messages) cap` messages of
the address — i.e. deletes exactly the messages beyond the cap — and
(iii) only ever deletes messages that are no newer than every kept message
of the address: the oldest excess ones, never the newest. -/
theorem enforceMessageLimit_fifo (emails : List EmailRow) (addrId : String) (maxM : Nat)
    (hpos : 0 < maxM)
    (hids : ((emails.filter (fun e => e.addressId == addrId)).map (·.id)).Nodup) :
    (enforceMessageLimit emails addrId maxM).filter (fun e => !(e.addressId == addrId))
      = emails.filter (fun e => !(e.addressId == addrId)) ∧
    ((enforceMessageLimit emails addrId maxM).filter (fun e => e.addressId == addrId)).length
      = min (emails.filter (fun e => e.addressId == addrId)).length maxM ∧
    (∀ d ∈ emails, d.addressId = addrId → d ∉ enforceMessageLimit emails addrId maxM →
      ∀ k ∈ enforceMessageLimit emails addrId maxM, k.addressId = addrId →
        d.receivedAt ≤ k.receivedAt) := by
  have hunfold : enforceMessageLimit emails addrId maxM
      = emails.filter (fun e => !(e.addressId == addrId &&
          !(((sortByReceivedDesc (emails.filter (fun e => e.addressId == addrId))).take
              maxM).map (·.id)).contains e.id)) := by
    unfold enforceMessageLimit
    rw [if_pos hpos]
  set F := emails.filter (fun e => e.addressId == addrId) with hF
  set S := sortByReceivedDesc F with hS
  set keep := S.take maxM with hkeep
  set keepIds := keep.map (·.id) with hkeepIds
  have hperm : List.Perm S F := sortByReceivedDesc_perm F
  have hsorted : RecvDescOrdered S := sortByReceivedDesc_sorted F
  have hSids : (S.map (·.id)).Nodup := ((hperm.map (·.id)).nodup_iff).mpr hids
  have hsplit : S = keep ++ S.drop maxM := (List.take_append_drop maxM S).symm
  -- keep/drop id disjointness
  have hdisj : ∀ y ∈ S.drop maxM, keepIds.contains y.id = false := by
    intro y hy
    by_contra hcon
    have hyid : y.id ∈ keepIds := by
      have := Bool.not_eq_false (keepIds.contains y.id) |>.mp hcon
      exact List.elem_iff.mp this
    have hmapsplit : S.map (·.id) = keepIds ++ (S.drop maxM).map (·.id) := by
      rw [hkeepIds, ← List.map_append, ← hsplit]
    rw [hmapsplit] at hSids
    rcases List.nodup_append.mp hSids with ⟨_, _, hdis⟩
    exact hdis hyid (List.mem_map.mpr ⟨y, hy, rfl⟩)
  have hkeepmem : ∀ y ∈ keep, keepIds.contains y.id = true := by
    intro y hy
    exact List.elem_iff.mpr (List.mem_map.mpr ⟨y, hy, rfl⟩)
  refine ⟨?_, ?_, ?_⟩
  · -- other addresses untouched
    rw [hunfold, List.filter_filter]
    apply List.filter_congr
    intro e _
    cases he : (e.addressId == addrId) <;> simp [he]
  · -- exact count
    rw [hunfold, List.filter_filter]
    have hpt : emails.filter (fun e =>
        (e.addressId == addrId) &&
        !(e.addressId == addrId && !keepIds.contains e.id))
        = F.filter (fun e => keepIds.contains e.id) := by
      rw [hF, List.filter_filter]
      apply List.filter_congr
      intro e _
      cases he : (e.addressId == addrId) <;> cases hc : keepIds.contains e.id <;>
        simp [he, hc]
    rw [hpt]
    have hlen : (F.filter (fun e => keepIds.contains e.id)).length
        = (S.filter (fun e => keepIds.contains e.id)).length :=
      ((List.Perm.filter _ hperm).length_eq).symm
    rw [hlen]
    conv_lhs => rw [hsplit]
    rw [List.filter_append]
    rw [List.filter_eq_self.mpr hkeepmem]
    rw [List.filter_eq_nil_iff.mpr (by intro a ha; rw [hdisj a ha]; simp)]
    have hSF : S.length = F.length := hperm.length_eq
    rw [List.append_nil, hkeep, List.length_take, hSF, Nat.min_comm]
  · -- never the newest
    intro d hd hdaddr hdnot k hk hkaddr
    rw [hunfold] at hdnot hk
    have hdF : d ∈ F := List.mem_filter.mpr ⟨hd, by simp [hdaddr]⟩
    have hdS : d ∈ S := hperm.mem_iff.mpr hdF
    have hdpred : ¬((fun e => !(e.addressId == addrId && !keepIds.contains e.id)) d = true) := by
      intro hp
      exact hdnot (List.mem_filter.mpr ⟨hd, hp⟩)
    have hdid : keepIds.contains d.id = false := by
      simp only [hdaddr, beq_self_eq_true, Bool.true_and, Bool.not_not] at hdpred
      cases hc : keepIds.contains d.id
      · rfl
      · exact absurd hc hdpred
    have hddrop : d ∈ S.drop maxM := by
      rcases List.mem_append.mp (hsplit ▸ hdS) with hin | hin
      · exfalso
        rw [hkeepmem d hin] at hdid
        exact Bool.true_eq_false.mp hdid
      · exact hin
    have hkmemF : k ∈ F := by
      rcases List.mem_filter.mp hk with ⟨hkmem, hkp⟩
      exact List.mem_filter.mpr ⟨hkmem, by simp [hkaddr]⟩
    have hkid : keepIds.contains k.id = true := by
      rcases List.mem_filter.mp hk with ⟨_, hkp⟩
      simp only [hkaddr, beq_self_eq_true, Bool.true_and, Bool.not_not] at hkp
      exact hkp
    have hkS : k ∈ S := hperm.mem_iff.mpr hkmemF
    have hkkeep : k ∈ keep := by
      rcases List.mem_append.mp (hsplit ▸ hkS) with hin | hin
      · exact hin
      · exfalso
        rw [hdisj k hin] at hkid
        exact Bool.false_eq_true.mp hkid
    have := (List.pairwise_append.mp (hsplit ▸ hsorted)).2.2 k hkkeep d hddrop
    exact this

/-- Witness for C4: three messages of one address, cap 2 — the two newest
survive. -/
theorem enforceMessageLimit_fifo_witness :
    0 < 2 ∧
    ((([mkRow "a" "ad" 1 0 none none, mkRow "b" "ad" 2 0 none none,
        mkRow "c" "ad" 3 0 none none] : List EmailRow).filter
          (fun e => e.addressId == "ad")).map (·.id)).Nodup ∧
    ((enforceMessageLimit
          [mkRow "a" "ad" 1 0 none none, mkRow "b" "ad" 2 0 none none,
           mkRow "c" "ad" 3 0 none none] "ad" 2).filter
        (fun e => !(e.addressId == "ad"))
      = ([mkRow "a" "ad" 1 0 none none, mkRow "b" "ad" 2 0 none none,
          mkRow "c" "ad" 3 0 none none] : List EmailRow).filter
          (fun e => !(e.addressId == "ad")) ∧
     ((enforceMessageLimit
          [mkRow "a" "ad" 1 0 none none, mkRow "b" "ad" 2 0 none none,
           mkRow "c" "ad" 3 0 none none] "ad" 2).filter
         (fun e => e.addressId == "ad")).length
       = min (([mkRow "a" "ad" 1 0 none none, mkRow "b" "ad" 2 0 none none,
               mkRow "c" "ad" 3 0 none none] : List EmailRow).filter
                (fun e => e.addressId == "ad")).length 2 ∧
     (∀ d ∈ ([mkRow "a" "ad" 1 0 none none, mkRow "b" "ad" 2 0 none none,
              mkRow "c" "ad" 3 0 none none] : List EmailRow), d.addressId = "ad" →
        d ∉ enforceMessageLimit
              [mkRow "a" "ad" 1 0 none none, mkRow "b" "ad" 2 0 none none,
               mkRow "c" "ad" 3 0 none none] "ad" 2 →
        ∀ k ∈ enforceMessageLimit
              [mkRow "a" "ad" 1 0 none none, mkRow "b" "ad" 2 0 none none,
               mkRow "c" "ad" 3 0 none none] "ad" 2, k.addressId = "ad" →
          d.receivedAt ≤ k.receivedAt)) :=
  ⟨by decide, by decide,
   enforceMessageLimit_fifo
     [mkRow "a" "ad" 1 0 none none, mkRow "b" "ad" 2 0 none none,
      mkRow "c" "ad" 3 0 none none] "ad" 2 (by decide) (by decide)⟩

/-! ## Non-emptiness of extracted values -/

/-- A successful case-insensitive match of a non-empty pattern starts with a
character lowering to the pattern's first character. -/
theorem matchCIGo_head {p : Char} {ps s m r : List Char}
    (h : matchCIGo (p :: ps) s = some (m, r)) :
    ∃ c cs, m = c :: cs ∧ c.toLower = p := by
  cases s with
  | nil => simp [matchCIGo] at h
  | cons c cs =>
    simp only [matchCIGo] at h
    by_cases hc : c.toLower = p
    · rw [if_pos hc] at h
      rcases Option.map_eq_some'.mp h with ⟨pr, _, heq⟩
      cases heq
      exact ⟨c, pr.1, rfl, hc⟩
    · rw [if_neg hc] at h
      simp at h

/-- A matched scheme prefix starts with an `h` or `H`. -/
theorem linkPrefix_head {s : List Char} {pre r : List Char}
    (h : linkPrefix s = some (pre, r)) :
    ∃ c cs, pre = c :: cs ∧ c.toLower = 'h' := by
  unfold linkPrefix at h
  cases h1 : matchCI "http" s with
  | none => rw [h1] at h; simp at h
  | some pr1 =>
    obtain ⟨m1, r1⟩ := pr1
    rw [h1] at h
    simp only at h
    have h1' : matchCIGo ('h' :: ['t', 't', 'p']) s = some (m1, r1) := h1
    obtain ⟨c, cs, hm1, hc⟩ := matchCIGo_head h1'
    cases h2 : matchCI "s://" r1 with
    | some pr2 =>
      rw [h2] at h
      simp only at h
      cases h
      exact ⟨c, cs ++ pr2.1, by rw [hm1]; simp, hc⟩
    | none =>
      rw [h2] at h
      cases h3 : matchCI "://" r1 with
      | some pr3 =>
        rw [h3] at h
        simp only at h
        cases h
        exact ⟨c, cs ++ pr3.1, by rw [hm1]; simp, hc⟩
      | none => rw [h3] at h; simp at h

/-- Every match of a link pattern starts with an `h` or `H`. -/
theorem linkMatchAt_head {cond : List Char → Bool} {s m after : List Char}
    (h : linkMatchAt cond s = some (m, after)) :
    ∃ c cs, m = c :: cs ∧ c.toLower = 'h' := by
  unfold linkMatchAt at h
  cases h1 : linkPrefix s with
  | none => rw [h1] at h; simp at h
  | some pr =>
    obtain ⟨pre, r⟩ := pr
    rw [h1] at h
    simp only at h
    obtain ⟨c, cs, hpre, hc⟩ := linkPrefix_head h1
    split at h
    · simp at h
    · cases h
      exact ⟨c, cs ++ r.takeWhile urlChar, by rw [hpre]; simp, hc⟩

/-- Every match produced by a `/g` scan starts with an `h` or `H`. -/
theorem scanLinksF_mem_head (cond : List Char → Bool) :
    ∀ (fuel : Nat) (s m : List Char), m ∈ scanLinksF cond fuel s →
      ∃ c cs, m = c :: cs ∧ c.toLower = 'h' := by
  intro fuel
  induction fuel with
  | zero => intro s m h; simp [scanLinksF] at h
  | succ n ih =>
    intro s m h
    cases s with
    | nil => simp [scanLinksF] at h
    | cons c0 rest =>
      simp only [scanLinksF] at h
      cases hm : linkMatchAt cond (c0 :: rest) with
      | none =>
        rw [hm] at h
        exact ih rest m h
      | some pr =>
        obtain ⟨mm, after⟩ := pr
        rw [hm] at h
        simp only at h
        rcases List.mem_cons.mp h with rfl | hmem
        · exact linkMatchAt_head hm
        · exact ih after m hmem

/-- Characters lowering to `h` are not in the trailing-junk class. -/
theorem stripClass_of_lower_h {c : Char} (h : c.toLower = 'h') : stripClass c = false := by
  cases hs : stripClass c
  · rfl
  · exfalso
    unfold stripClass wsChar at hs
    simp only [Bool.or_eq_true, decide_eq_true_eq] at hs
    rcases hs with ((((h1 | h1) | h1) | h1) | (((((h1 | h1) | h1) | h1) | h1) | h1)) <;>
      (subst h1; exact absurd h (by decide))

/-- Trailing-junk stripping keeps a leading non-junk character. -/
theorem rstripUrl_ne_nil {c : Char} {l : List Char} (h : stripClass c = false) :
    rstripUrl (c :: l) ≠ [] := by
  intro hemp
  unfold rstripUrl at hemp
  rw [List.reverse_eq_nil_iff] at hemp
  have hmem : c ∈ (c :: l).reverse := by simp
  have := List.dropWhile_eq_nil_iff.mp hemp c hmem
  rw [h] at this
  simp at this

/-- The candidate loop of `extractLink` never returns the empty string when
every match starts with an `h` or `H`. -/
theorem firstGoodLink_ne_empty :
    ∀ (ms : List (List Char)) (u : String),
      (∀ m ∈ ms, ∃ c cs, m = c :: cs ∧ c.toLower = 'h') →
      firstGoodLink ms = some u → u ≠ "" := by
  intro ms
  induction ms with
  | nil => intro u _ h; simp [firstGoodLink] at h
  | cons m rest ih =>
    intro u hall h
    simp only [firstGoodLink] at h
    by_cases hs : linkSkip (String.mk (rstripUrl m)) = true
    · rw [if_pos hs] at h
      exact ih u (fun x hx => hall x (List.mem_cons_of_mem _ hx)) h
    · rw [if_neg hs] at h
      cases h
      obtain ⟨c, cs, rfl, hc⟩ := hall m (List.mem_cons_self _ _)
      intro hemp
      have hd : rstripUrl (c :: cs) = [] := by
        have := congrArg String.data hemp
        simpa using this
      exact rstripUrl_ne_nil (stripClass_of_lower_h hc) hd

/-- `extractLink` never returns the empty string. -/
theorem extractLink_ne_empty {t u : String} (h : extractLink t = some u) : u ≠ "" := by
  simp only [extractLink] at h
  cases h1 : firstGoodLink (scanLinks l1Cond (cleanForLink t)) with
  | some v =>
    rw [h1] at h
    simp only [Option.some.injEq] at h
    subst h
    exact firstGoodLink_ne_empty _ v
      (fun m hm => scanLinksF_mem_head l1Cond _ _ m hm) h1
  | none =>
    rw [h1] at h
    exact firstGoodLink_ne_empty _ u
      (fun m hm => scanLinksF_mem_head l2Cond _ _ m hm) h

/-- Any link returned by `extractOtp` comes from one of the two
`extractLink` calls. -/
theorem extractOtp_link_source {subject bodyText bodyHtml : Option String} {u : String}
    (h : (extractOtp subject bodyText bodyHtml).link = some u) :
    extractLink (bodyHtml.getD "") = some u ∨ extractLink (bodyText.getD "") = some u := by
  simp only [extractOtp] at h
  split at h
  · simp only at h
    exact jsOrStr_eq_some h
  · simp at h

/-- `extractOtp` never returns an empty code. -/
theorem extractOtp_code_ne_empty {subject bodyText bodyHtml : Option String} {c : String}
    (h : (extractOtp subject bodyText bodyHtml).code = some c) : c ≠ "" := by
  rcases extractOtp_code_source h with h1 | h1 | h1 <;> exact extractCode_ne_empty h1

/-- `extractOtp` never returns an empty link. -/
theorem extractOtp_link_ne_empty {subject bodyText bodyHtml : Option String} {u : String}
    (h : (extractOtp subject bodyText bodyHtml).link = some u) : u ≠ "" := by
  rcases extractOtp_link_source h with h1 | h1 <;> exact extractLink_ne_empty h1

/-- `head?` hits are members. -/
theorem mem_of_head_eq_some {A : Type} {l : List A} {a : A} (h : l.head? = some a) :
    a ∈ l := by
  cases l with
  | nil => simp at h
  | cons x xs =>
    simp only [List.head?_cons, Option.some.injEq] at h
    subst h
    exact List.mem_cons_self _ _

/-! ## C10: the `otp_extracted` flag invariant and the retrieval filter -/

/-- C10.  (i) Every row written by the ingestion path has
`otp_extracted = 1` exactly when the extracted code or link is non-null
(the JavaScript truthiness test coincides with the null test because the
extractor never produces empty strings); (ii) the long-poll query selects
only rows with `otp_extracted = 1`, so on any table whose rows satisfy the
invariant every returned message has a non-null code or link. -/
theorem otpExtracted_invariant :
    (∀ id addrId fromA fromName subject bodyText bodyHtml rawHeaders plan now,
      ((ingestEmailRow id addrId fromA fromName subject bodyText bodyHtml rawHeaders plan
          now).otpExtracted = 1
        ↔ ((ingestEmailRow id addrId fromA fromName subject bodyText bodyHtml rawHeaders plan
              now).otpCode ≠ none ∨
           (ingestEmailRow id addrId fromA fromName subject bodyText bodyHtml rawHeaders plan
              now).otpLink ≠ none))) ∧
    (∀ emails addrId since fromFilter row,
      (∀ r ∈ emails, r.otpExtracted = 1 ↔ (r.otpCode ≠ none ∨ r.otpLink ≠ none)) →
      latestOtpEmail emails addrId since fromFilter = some row →
      (row.otpCode ≠ none ∨ row.otpLink ≠ none)) := by
  constructor
  · intro id addrId fromA fromName subject bodyText bodyHtml rawHeaders plan now
    simp only [ingestEmailRow]
    cases hc : (extractOtp (some subject) bodyText bodyHtml).code with
    | some c =>
      have hcne : c ≠ "" := extractOtp_code_ne_empty hc
      simp [hc, jsTruthyStr, hcne]
    | none =>
      cases hl : (extractOtp (some subject) bodyText bodyHtml).link with
      | some u =>
        have hune : u ≠ "" := extractOtp_link_ne_empty hl
        simp [hc, hl, jsTruthyStr, hune]
      | none => simp [hc, hl, jsTruthyStr]
  · intro emails addrId since fromFilter row hinv h
    simp only [latestOtpEmail] at h
    have hmem := mem_of_head_eq_some h
    have hmemf := (sortByReceivedDesc_perm _).mem_iff.mp hmem
    have hmeme := (List.mem_filter.mp hmemf).1
    have hpred := (List.mem_filter.mp hmemf).2
    simp only [Bool.and_eq_true] at hpred
    have hflag : row.otpExtracted = 1 := by
      have := hpred.1.1.2
      exact beq_iff_eq.mp this
    exact (hinv row hmeme).mp hflag

/-- Witness for C10's query direction: a one-row table satisfying the
invariant, on which the long-poll query returns that row. -/
theorem otpExtracted_invariant_witness :
    (∀ r ∈ ([mkRow "i" "ad" 5 1 (some "123456") none] : List EmailRow),
       r.otpExtracted = 1 ↔ (r.otpCode ≠ none ∨ r.otpLink ≠ none)) ∧
    latestOtpEmail [mkRow "i" "ad" 5 1 (some "123456") none] "ad" none none
      = some (mkRow "i" "ad" 5 1 (some "123456") none) ∧
    ((mkRow "i" "ad" 5 1 (some "123456") none).otpCode ≠ none ∨
     (mkRow "i" "ad" 5 1 (some "123456") none).otpLink ≠ none) :=
  ⟨by decide, by decide,
   otpExtracted_invariant.2 [mkRow "i" "ad" 5 1 (some "123456") none] "ad" none none
     (mkRow "i" "ad" 5 1 (some "123456") none) (by decide) (by decide)⟩
